import Mathlib

/-!
A shallow embedding of the rule-chain evaluator of ManifoldMarketManager
(src/market.py).  The `Market` dataclass holds a market snapshot, operator
notes and two ordered rule lists; its `should_resolve` and `resolve_to`
methods are embedded below with rules modelled as functions from the
decision context and Python exceptions modelled with `Except`.
-/

namespace ManifoldMM

/-- One free-response answer: an index paired with its probability.
resolve_to reads the probability field (the source keys the lambda by
x's probability entry); the index identifies the answer. -/
structure Answer where
  index : Nat
  probability : ℚ
deriving Repr, DecidableEq

/-- The fields of the pymanifold market snapshot that market.py reads:
id, isResolved, probability (binary markets only) and answers
(free-response markets only). -/
structure APIMarket where
  id : String
  isResolved : Bool
  probability : Option ℚ
  answers : Option (List Answer)
deriving Repr, DecidableEq

/-- Python exceptions that can cross the evaluator: an arbitrary error
raised by a rule, and the TypeError / ValueError that Python's max raises
on a missing or empty sequence. -/
inductive Err where
  | ruleError (msg : String)
  | typeError (msg : String)
  | valueError (msg : String)
deriving Repr, DecidableEq

/-- Values resolve_to can produce: a boolean (binary fallback), an integer
index, a float, a string such as "CANCEL", a mapping of indices to weights,
or a whole answer entry (what the free-response fallback returns). -/
inductive RVal where
  | vBool (b : Bool)
  | vInt (n : Int)
  | vFloat (q : ℚ)
  | vStr (s : String)
  | vDist (d : List (Nat × ℚ))
  | vAnswer (a : Answer)
deriving Repr, DecidableEq

/-- The decision context a rule receives: market.py passes self to
rule.value, so a rule reads the market snapshot and the operator notes. -/
structure Ctx where
  market : APIMarket
  notes : String
deriving Repr, DecidableEq

/-- A gate rule (DoResolveRule): context to boolean, possibly raising. -/
def DoResolveRule : Type := Ctx → Except Err Bool

/-- A value rule (ResolutionValueRule): context to an optional value,
none meaning the rule has no opinion; possibly raising. -/
def ResolutionValueRule : Type := Ctx → Except Err (Option RVal)

/-- The Market dataclass of market.py: snapshot, notes and the two rule
lists.  The client field is omitted: the decision methods never consult
it. -/
structure Market where
  market : APIMarket
  notes : String
  do_resolve_rules : List DoResolveRule
  resolve_to_rules : List ResolutionValueRule

/-- The context handed to each rule. -/
def Market.ctx (m : Market) : Ctx := ⟨m.market, m.notes⟩

/-- Python's any over the generator of rule.value(self) results:
short-circuits at the first rule returning true; an error raised by an
evaluated rule propagates. -/
def anyRule : List DoResolveRule → Ctx → Except Err Bool
  | [], _ => .ok false
  | r :: rs, c =>
    match r c with
    | .error e => .error e
    | .ok true => .ok true
    | .ok false => anyRule rs c

/-- Market.should_resolve: any(rule.value(self) for rule in
do_resolve_rules) and not self.market.isResolved.  Python evaluates the
any(...) operand first, then conjoins with the negated resolution flag. -/
def Market.should_resolve (m : Market) : Except Err Bool :=
  match anyRule m.do_resolve_rules m.ctx with
  | .error e => .error e
  | .ok a => .ok (a && !m.market.isResolved)

/-- The walrus loop of resolve_to: iterate the rules in order, stop at the
first whose value is not None; later rules are not evaluated; an error
raised by an evaluated rule propagates. -/
def firstValue : List ResolutionValueRule → Ctx → Except Err (Option RVal)
  | [], _ => .ok none
  | r :: rs, c =>
    match r c with
    | .error e => .error e
    | .ok (some v) => .ok (some v)
    | .ok none => firstValue rs c

/-- Python's round to an integer: round half to even.  Written with floor
division and floor remainder of the numerator by the denominator so that it
evaluates on concrete rationals; the fractional part r / d is compared with
one half by comparing 2 * r with d. -/
def pyRound (q : ℚ) : ℤ :=
  let d : ℤ := (q.den : ℤ)
  let f : ℤ := q.num.fdiv d
  let r : ℤ := q.num.fmod d
  if 2 * r < d then f
  else if d < 2 * r then f + 1
  else if f % 2 = 0 then f else f + 1

/-- Python's max with a key over a nonempty sequence: keeps the current
element on ties and replaces it only on a strictly greater key, so the
first maximum wins. -/
def pyMaxBy (k : Answer → ℚ) : Answer → List Answer → Answer
  | cur, [] => cur
  | cur, a :: rest => pyMaxBy k (if k cur < k a then a else cur) rest

/-- The fallback max(self.market.answers, key=lambda x: probability of x):
a missing answers field (None) raises TypeError, an empty sequence raises
ValueError, otherwise the first answer of maximal probability is
returned. -/
def maxAnswers : Option (List Answer) → Except Err Answer
  | none => .error (.typeError "NoneType object is not iterable")
  | some [] => .error (.valueError "max arg is an empty sequence")
  | some (a :: rest) => .ok (pyMaxBy (fun x => x.probability) a rest)

/-- Market.resolve_to: the first decisive rule wins; with no decisive rule,
a binary market resolves to bool(round(probability)) and otherwise the
answer of maximal probability is returned. -/
def Market.resolve_to (m : Market) : Except Err RVal :=
  match firstValue m.resolve_to_rules m.ctx with
  | .error e => .error e
  | .ok (some v) => .ok v
  | .ok none =>
    match m.market.probability with
    | some p => .ok (.vBool (pyRound p != 0))
    | none =>
      match maxAnswers m.market.answers with
      | .error e => .error e
      | .ok a => .ok (.vAnswer a)

/-- A gate rule built from a pure boolean predicate (never raises). -/
def pureGate (f : Ctx → Bool) : DoResolveRule := fun c => .ok (f c)

/-- State-passing rendering of the any loop: the context is threaded
through the iteration and handed back, making it expressible that the
evaluator returns it unchanged. -/
def anyRuleS : List DoResolveRule → Ctx → Except Err (Bool × Ctx)
  | [], c => .ok (false, c)
  | r :: rs, c =>
    match r c with
    | .error e => .error e
    | .ok true => .ok (true, c)
    | .ok false => anyRuleS rs c

/-- State-passing rendering of should_resolve: returns the decision
together with the context as it stands after the call. -/
def Market.should_resolveS (m : Market) : Except Err (Bool × Ctx) :=
  match anyRuleS m.do_resolve_rules m.ctx with
  | .error e => .error e
  | .ok (a, c) => .ok (a && !c.market.isResolved, c)

/-- State-passing rendering of the walrus loop of resolve_to. -/
def firstValueS : List ResolutionValueRule → Ctx → Except Err (Option RVal × Ctx)
  | [], c => .ok (none, c)
  | r :: rs, c =>
    match r c with
    | .error e => .error e
    | .ok (some v) => .ok (some v, c)
    | .ok none => firstValueS rs c

/-- State-passing rendering of resolve_to: returns the chosen value
together with the context as it stands after the call. -/
def Market.resolve_toS (m : Market) : Except Err (RVal × Ctx) :=
  match firstValueS m.resolve_to_rules m.ctx with
  | .error e => .error e
  | .ok (some v, c) => .ok (v, c)
  | .ok (none, c) =>
    match c.market.probability with
    | some p => .ok (.vBool (pyRound p != 0), c)
    | none =>
      match maxAnswers c.market.answers with
      | .error e => .error e
      | .ok a => .ok (.vAnswer a, c)

/-! Helper lemmas about the two iteration loops. -/

/-- Over lifted pure predicates, the any loop computes the boolean OR of
all the predicates at the context. -/
theorem anyRule_pure (fs : List (Ctx → Bool)) (c : Ctx) :
    anyRule (fs.map pureGate) c = .ok (fs.any (fun f => f c)) := by
  induction fs with
  | nil => rfl
  | cons f fs ih =>
    cases h : f c <;> simp [anyRule, pureGate, h, ih]

/-- When every rule of the list declines at the context, the walrus loop
returns none. -/
theorem firstValue_absent (rules : List ResolutionValueRule) (c : Ctx)
    (h : ∀ r ∈ rules, r c = .ok none) : firstValue rules c = .ok none := by
  induction rules with
  | nil => rfl
  | cons r rs ih =>
    have hr := h r (List.mem_cons_self ..)
    simp [firstValue, hr]
    exact ih fun q hq => h q (List.mem_cons_of_mem _ hq)

/-- When every rule before r declines and r decides, the walrus loop stops
at r's value, whatever the rules after r would do. -/
theorem firstValue_first (pre : List ResolutionValueRule)
    (r : ResolutionValueRule) (post : List ResolutionValueRule)
    (c : Ctx) (v : RVal)
    (hpre : ∀ q ∈ pre, q c = .ok none) (hr : r c = .ok (some v)) :
    firstValue (pre ++ r :: post) c = .ok (some v) := by
  induction pre with
  | nil => simp [firstValue, hr]
  | cons q qs ih =>
    have hq := hpre q (List.mem_cons_self ..)
    simp [firstValue, hq]
    exact ih fun x hx => hpre x (List.mem_cons_of_mem _ hx)

/-- When every rule before the raiser declines and the raiser raises, the
walrus loop propagates the error. -/
theorem firstValue_error (pre : List ResolutionValueRule)
    (raiser : ResolutionValueRule) (post : List ResolutionValueRule)
    (c : Ctx) (e : Err)
    (hpre : ∀ q ∈ pre, q c = .ok none) (hr : raiser c = .error e) :
    firstValue (pre ++ raiser :: post) c = .error e := by
  induction pre with
  | nil => simp [firstValue, hr]
  | cons q qs ih =>
    have hq := hpre q (List.mem_cons_self ..)
    simp [firstValue, hq]
    exact ih fun x hx => hpre x (List.mem_cons_of_mem _ hx)

/-- When every gate rule before the raiser returns false and the raiser
raises, the any loop propagates the error. -/
theorem anyRule_error (pre : List DoResolveRule)
    (raiser : DoResolveRule) (post : List DoResolveRule)
    (c : Ctx) (e : Err)
    (hpre : ∀ q ∈ pre, q c = .ok false) (hr : raiser c = .error e) :
    anyRule (pre ++ raiser :: post) c = .error e := by
  induction pre with
  | nil => simp [anyRule, hr]
  | cons q qs ih =>
    have hq := hpre q (List.mem_cons_self ..)
    simp [anyRule, hq]
    exact ih fun x hx => hpre x (List.mem_cons_of_mem _ hx)

/-- The any loop
threads the context through unchanged. -/
theorem anyRuleS_ctx (rules : List DoResolveRule) (c : Ctx) (b : Bool)
    (c2 : Ctx) (h : anyRuleS rules c = .ok (b, c2)) : c2 = c := by
  induction rules with
  | nil => simp [anyRuleS] at h; exact h.2.symm
  | cons r rs ih =>
    simp only [anyRuleS] at h
    cases hr : r c with
    | error e => rw [hr] at h; cases h
    | ok bv =>
      rw [hr] at h
      cases bv with
      | true => simp at h; exact h.2.symm
      | false => exact ih h

/-- The walrus loop threads the context through unchanged. -/
theorem firstValueS_ctx (rules : List ResolutionValueRule) (c : Ctx)
    (v : Option RVal) (c2 : Ctx)
    (h : firstValueS rules c = .ok (v, c2)) : c2 = c := by
  induction rules with
  | nil => simp [firstValueS] at h; exact h.2.symm
  | cons r rs ih =>
    simp only [firstValueS] at h
    cases hr : r c with
    | error e => rw [hr] at h; cases h
    | ok ov =>
      rw [hr] at h
      cases ov with
      | some x => simp at h; exact h.2.symm
      | none => exact ih h

/-- pyRound returns a nearest integer: q lies within one half of it. -/
theorem pyRound_nearest (q : ℚ) : |q - (pyRound q : ℚ)| ≤ 1/2 := by
  have hdz : (0:ℤ) < (q.den : ℤ) := by exact_mod_cast q.den_pos
  have hsum := Int.fmod_add_fdiv q.num (q.den : ℤ)
  have hr0 : (0:ℤ) ≤ q.num.fmod (q.den : ℤ) := Int.fmod_nonneg' q.num hdz
  have hrd : q.num.fmod (q.den : ℤ) < (q.den : ℤ) := Int.fmod_lt_of_pos q.num hdz
  have hdq : (0:ℚ) < (q.den : ℚ) := by exact_mod_cast q.den_pos
  have hnum : q * (q.den : ℚ) = (q.num : ℚ) := Rat.mul_den_eq_num q
  have hsumq : (q.num.fmod (q.den:ℤ) : ℚ) + (q.den : ℚ) * (q.num.fdiv (q.den:ℤ) : ℚ)
      = (q.num : ℚ) := by exact_mod_cast hsum
  have hr0q : (0:ℚ) ≤ (q.num.fmod (q.den:ℤ) : ℚ) := by exact_mod_cast hr0
  have hrdq : (q.num.fmod (q.den:ℤ) : ℚ) < (q.den : ℚ) := by exact_mod_cast hrd
  have hfd : q - (q.num.fdiv (q.den:ℤ) : ℚ)
      = (q.num.fmod (q.den:ℤ) : ℚ) / (q.den : ℚ) := by
    field_simp
    linear_combination hnum - hsumq
  have hfd1 : q - ((q.num.fdiv (q.den:ℤ) : ℚ) + 1)
      = (q.num.fmod (q.den:ℤ) : ℚ) / (q.den : ℚ) - 1 := by
    rw [← hfd]; ring
  simp only [pyRound]
  split_ifs with h1 h2 h3
  · have h1q : 2 * (q.num.fmod (q.den:ℤ) : ℚ) < (q.den : ℚ) := by exact_mod_cast h1
    rw [hfd, abs_le]
    constructor
    · have hpos : (0:ℚ) ≤ (q.num.fmod (q.den:ℤ) : ℚ) / (q.den : ℚ) :=
        div_nonneg hr0q hdq.le
      linarith
    · rw [div_le_iff₀ hdq]; linarith
  · have h2q : (q.den : ℚ) < 2 * (q.num.fmod (q.den:ℤ) : ℚ) := by exact_mod_cast h2
    push_cast
    rw [hfd1, abs_le]
    constructor
    · have hhalf : (1:ℚ)/2 ≤ (q.num.fmod (q.den:ℤ) : ℚ) / (q.den : ℚ) := by
        rw [le_div_iff₀ hdq]; linarith
      linarith
    · have hlt1 : (q.num.fmod (q.den:ℤ) : ℚ) / (q.den : ℚ) < 1 :=
        (div_lt_one hdq).mpr hrdq
      linarith
  · have heq : 2 * (q.num.fmod (q.den:ℤ) : ℚ) = (q.den : ℚ) := by
      have hle1 : (q.den:ℤ) ≤ 2 * q.num.fmod (q.den:ℤ) := not_lt.mp h1
      have hle2 : 2 * q.num.fmod (q.den:ℤ) ≤ (q.den:ℤ) := not_lt.mp h2
      exact_mod_cast le_antisymm hle2 hle1
    rw [hfd, abs_le]
    constructor
    · have hpos : (0:ℚ) ≤ (q.num.fmod (q.den:ℤ) : ℚ) / (q.den : ℚ) :=
        div_nonneg hr0q hdq.le
      linarith
    · rw [div_le_iff₀ hdq]; linarith
  · have heq : 2 * (q.num.fmod (q.den:ℤ) : ℚ) = (q.den : ℚ) := by
      have hle1 : (q.den:ℤ) ≤ 2 * q.num.fmod (q.den:ℤ) := not_lt.mp h1
      have hle2 : 2 * q.num.fmod (q.den:ℤ) ≤ (q.den:ℤ) := not_lt.mp h2
      exact_mod_cast le_antisymm hle2 hle1
    push_cast
    rw [hfd1, abs_le]
    constructor
    · have hhalf : (1:ℚ)/2 ≤ (q.num.fmod (q.den:ℤ) : ℚ) / (q.den : ℚ) := by
        rw [le_div_iff₀ hdq]; linarith
      linarith
    · have hlt1 : (q.num.fmod (q.den:ℤ) : ℚ) / (q.den : ℚ) < 1 :=
        (div_lt_one hdq).mpr hrdq
      linarith

/-- The pair of results of two successive calls of resolve_to on the same
market value. -/
def resolveTwice (m : Market) : Except Err RVal × Except Err RVal :=
  (m.resolve_to, m.resolve_to)

/-! The claims. -/

/-- C1: for every context and every ordered sequence of gate rules,
should_resolve returns the logical OR of all gate rules' boolean results
conjoined with the negation of isResolved; in particular it returns false
whenever isResolved is true even if every gate rule returns true, and it
returns false for an empty gate-rule sequence regardless of resolution
status. -/
theorem should_resolve_gate_or :
    (∀ (api : APIMarket) (notes : String) (fs : List (Ctx → Bool))
        (vrs : List ResolutionValueRule),
      (Market.mk api notes (fs.map pureGate) vrs).should_resolve
        = .ok (fs.any (fun f => f ⟨api, notes⟩) && !api.isResolved)) ∧
    (∀ (api : APIMarket) (notes : String) (fs : List (Ctx → Bool))
        (vrs : List ResolutionValueRule),
      api.isResolved = true →
      (Market.mk api notes (fs.map pureGate) vrs).should_resolve = .ok false) ∧
    (∀ (api : APIMarket) (notes : String) (vrs : List ResolutionValueRule),
      (Market.mk api notes [] vrs).should_resolve = .ok false) := by
  refine ⟨?_, ?_, ?_⟩
  · intro api notes fs vrs
    simp [Market.should_resolve, Market.ctx, anyRule_pure]
  · intro api notes fs vrs h
    simp [Market.should_resolve, Market.ctx, anyRule_pure, h]
  · intro api notes vrs
    simp [Market.should_resolve, Market.ctx, anyRule]

/-- C1 witness: an already resolved market with one always-true gate rule
is still not eligible. -/
theorem should_resolve_gate_or_witness :
    (Market.mk ⟨"m", true, none, none⟩ ""
        ([fun _ => true].map pureGate) []).should_resolve = .ok false :=
  should_resolve_gate_or.2.1 ⟨"m", true, none, none⟩ "" [fun _ => true] [] rfl

/-- C2: resolve_to returns the result of the first value rule in sequence
order whose result is non-absent, and the rules after that first decisive
rule are not evaluated: whatever the later rules would return or raise,
the result is unchanged. -/
theorem resolve_to_first_decisive (api : APIMarket) (notes : String)
    (gs : List DoResolveRule)
    (pre : List ResolutionValueRule) (r : ResolutionValueRule)
    (post : List ResolutionValueRule) (v : RVal)
    (hpre : ∀ q ∈ pre, q ⟨api, notes⟩ = .ok none)
    (hr : r ⟨api, notes⟩ = .ok (some v)) :
    (Market.mk api notes gs (pre ++ r :: post)).resolve_to = .ok v := by
  have key := firstValue_first pre r post ⟨api, notes⟩ v hpre hr
  simp [Market.resolve_to, Market.ctx, key]

/-- C2 witness: with rules returning absent, "CANCEL" and 42 in that order
the result is "CANCEL", not 42. -/
theorem resolve_to_first_decisive_witness :
    (Market.mk ⟨"m", false, none, none⟩ "" []
        [fun _ => .ok none, fun _ => .ok (some (.vStr "CANCEL")),
         fun _ => .ok (some (.vInt 42))]).resolve_to = .ok (.vStr "CANCEL") :=
  resolve_to_first_decisive ⟨"m", false, none, none⟩ "" []
    [fun _ => .ok none] (fun _ => .ok (some (.vStr "CANCEL")))
    [fun _ => .ok (some (.vInt 42))] (.vStr "CANCEL")
    (by intro q hq; simp at hq; subst hq; rfl) rfl

/-- C3: at the spec's example input the free-response fallback of
resolve_to returns the whole maximal answer entry, index 1 paired with its
probability 7/10, and not the bare index 1 that the claim and the
function's own docstring call for. -/
theorem resolve_to_free_response_entry :
    (Market.mk ⟨"m", false, none,
        some [⟨0, Rat.divInt 1 10⟩, ⟨1, Rat.divInt 7 10⟩, ⟨2, Rat.divInt 2 10⟩]⟩
        "" [] []).resolve_to = .ok (.vAnswer ⟨1, Rat.divInt 7 10⟩) ∧
    (Market.mk ⟨"m", false, none,
        some [⟨0, Rat.divInt 1 10⟩, ⟨1, Rat.divInt 7 10⟩, ⟨2, Rat.divInt 2 10⟩]⟩
        "" [] []).resolve_to ≠ .ok (.vInt 1) := by
  have h1 : (Market.mk ⟨"m", false, none,
      some [⟨0, Rat.divInt 1 10⟩, ⟨1, Rat.divInt 7 10⟩, ⟨2, Rat.divInt 2 10⟩]⟩
      "" [] []).resolve_to = .ok (.vAnswer ⟨1, Rat.divInt 7 10⟩) := rfl
  refine ⟨h1, ?_⟩
  rw [h1]
  simp

/-- C4: with a binary probability present and every value rule absent,
resolve_to returns bool(round(probability)); the embedded round picks a
nearest integer, and on the spec examples probability 8/10 yields true
while probability 2/10 yields false. -/
theorem resolve_to_binary_default :
    (∀ (api : APIMarket) (notes : String) (gs : List DoResolveRule)
        (rules : List ResolutionValueRule) (p : ℚ),
      api.probability = some p →
      (∀ r ∈ rules, r ⟨api, notes⟩ = .ok none) →
      (Market.mk api notes gs rules).resolve_to
        = .ok (.vBool (pyRound p != 0))) ∧
    (∀ p : ℚ, |p - (pyRound p : ℚ)| ≤ 1/2) ∧
    (Market.mk ⟨"m", false, some (Rat.divInt 8 10), none⟩ "" [] []).resolve_to
      = .ok (.vBool true) ∧
    (Market.mk ⟨"m", false, some (Rat.divInt 2 10), none⟩ "" [] []).resolve_to
      = .ok (.vBool false) := by
  refine ⟨?_, pyRound_nearest, rfl, rfl⟩
  intro api notes gs rules p hp habs
  have key := firstValue_absent rules ⟨api, notes⟩ habs
  simp [Market.resolve_to, Market.ctx, key, hp]

/-- C4 witness: a binary market of probability 3/4 and one declining value
rule resolves to the boolean of its rounded probability. -/
theorem resolve_to_binary_default_witness :
    (Market.mk ⟨"w", false, some (Rat.divInt 3 4), none⟩ "" []
        [fun _ => .ok none]).resolve_to
      = .ok (.vBool (pyRound (Rat.divInt 3 4) != 0)) :=
  resolve_to_binary_default.1 ⟨"w", false, some (Rat.divInt 3 4), none⟩ "" []
    [fun _ => .ok none] (Rat.divInt 3 4) rfl
    (by intro r hr; simp at hr; subst hr; rfl)

/-- C5 counterexample: a rule sequence can contain a raising rule while
neither call propagates any error: a decisive rule placed before the
raiser short-circuits the iteration, so resolve_to returns 42 and
should_resolve returns true instead of the error. -/
theorem error_after_decisive_suppressed :
    (Market.mk ⟨"m", false, none, none⟩ "" []
        [fun _ => .ok (some (.vInt 42)),
         fun _ => .error (.ruleError "boom")]).resolve_to = .ok (.vInt 42) ∧
    (Market.mk ⟨"m", false, none, none⟩ ""
        [fun _ => .ok true, fun _ => .error (.ruleError "boom")]
        []).should_resolve = .ok true :=
  ⟨rfl, rfl⟩

/-- C5 amended: when the raising rule is actually reached, because every
gate rule before it returned false, resp. every value rule before it
returned absent, should_resolve and resolve_to propagate that error to the
caller unmodified: the error is not caught, evaluation does not fall
through to the remaining rules, and no default value is returned. -/
theorem error_propagation (api : APIMarket) (notes : String) (e : Err) :
    (∀ (pre post : List DoResolveRule) (raiser : DoResolveRule)
        (vrs : List ResolutionValueRule),
      (∀ q ∈ pre, q ⟨api, notes⟩ = .ok false) →
      raiser ⟨api, notes⟩ = .error e →
      (Market.mk api notes (pre ++ raiser :: post) vrs).should_resolve
        = .error e) ∧
    (∀ (pre post : List ResolutionValueRule) (raiser : ResolutionValueRule)
        (gs : List DoResolveRule),
      (∀ q ∈ pre, q ⟨api, notes⟩ = .ok none) →
      raiser ⟨api, notes⟩ = .error e →
      (Market.mk api notes gs (pre ++ raiser :: post)).resolve_to
        = .error e) := by
  constructor
  · intro pre post raiser vrs hpre hr
    have key := anyRule_error pre raiser post ⟨api, notes⟩ e hpre hr
    simp [Market.should_resolve, Market.ctx, key]
  · intro pre post raiser gs hpre hr
    have key := firstValue_error pre raiser post ⟨api, notes⟩ e hpre hr
    simp [Market.resolve_to, Market.ctx, key]

/-- C5 witness: a lone raising gate rule makes should_resolve propagate
its error. -/
theorem error_propagation_witness :
    (Market.mk ⟨"m", false, none, none⟩ ""
        [fun _ => .error (.ruleError "boom")] []).should_resolve
      = .error (.ruleError "boom") :=
  (error_propagation ⟨"m", false, none, none⟩ "" (.ruleError "boom")).1
    [] [] (fun _ => .error (.ruleError "boom")) []
    (by intro q hq; cases hq) rfl

/-- C6: on a numeric-market context, probability absent and answers either
absent or empty, with every value rule absent, resolve_to produces no
guessed value: the call fails with an error. -/
theorem resolve_to_numeric_fails (api : APIMarket) (notes : String)
    (gs : List DoResolveRule) (rules : List ResolutionValueRule)
    (hp : api.probability = none)
    (ha : api.answers = none ∨ api.answers = some [])
    (habs : ∀ r ∈ rules, r ⟨api, notes⟩ = .ok none) :
    ∃ e, (Market.mk api notes gs rules).resolve_to = .error e := by
  have key := firstValue_absent rules ⟨api, notes⟩ habs
  rcases ha with ha | ha
  · exact ⟨.typeError "NoneType object is not iterable", by
      simp [Market.resolve_to, Market.ctx, key, hp, ha, maxAnswers]⟩
  · exact ⟨.valueError "max arg is an empty sequence", by
      simp [Market.resolve_to, Market.ctx, key, hp, ha, maxAnswers]⟩

/-- C6 witness: a market carrying neither probability nor answers, with
one declining value rule, makes resolve_to fail. -/
theorem resolve_to_numeric_fails_witness :
    ∃ e, (Market.mk ⟨"m", false, none, none⟩ "" []
        [fun _ => .ok none]).resolve_to = .error e :=
  resolve_to_numeric_fails ⟨"m", false, none, none⟩ "" [] [fun _ => .ok none]
    rfl (Or.inl rfl) (by intro r hr; simp at hr; subst hr; rfl)

/-- C7: calling resolve_to twice on the same immutable context and rule
sequence yields equal results, and the result depends on nothing besides
the snapshot, the notes and the value-rule sequence. -/
theorem resolve_to_idempotent :
    (∀ m : Market, (resolveTwice m).1 = (resolveTwice m).2) ∧
    (∀ m1 m2 : Market, m1.market = m2.market → m1.notes = m2.notes →
      m1.resolve_to_rules = m2.resolve_to_rules →
      m1.resolve_to = m2.resolve_to) := by
  constructor
  · intro m; rfl
  · intro m1 m2 h1 h2 h3
    unfold Market.resolve_to Market.ctx
    rw [h1, h2, h3]

/-- C7 witness: two markets sharing snapshot, notes and value rules but
differing in gate rules resolve to the same value. -/
theorem resolve_to_idempotent_witness :
    (Market.mk ⟨"m", false, none, some [⟨0, Rat.divInt 1 2⟩]⟩ "x"
        [fun _ => .ok true] []).resolve_to
      = (Market.mk ⟨"m", false, none, some [⟨0, Rat.divInt 1 2⟩]⟩ "x"
        [] []).resolve_to :=
  resolve_to_idempotent.2 _ _ rfl rfl rfl

/-- C8: the evaluator leaves the context unchanged: whenever the
state-passing renderings of should_resolve and resolve_to succeed, the
context they hand back agrees with the input context on every field, id,
isResolved, probability, answers and notes. -/
theorem evaluator_preserves_ctx (m : Market) :
    (∀ b c, m.should_resolveS = .ok (b, c) →
      c.market.id = m.market.id ∧ c.market.isResolved = m.market.isResolved ∧
      c.market.probability = m.market.probability ∧
      c.market.answers = m.market.answers ∧ c.notes = m.notes) ∧
    (∀ v c, m.resolve_toS = .ok (v, c) →
      c.market.id = m.market.id ∧ c.market.isResolved = m.market.isResolved ∧
      c.market.probability = m.market.probability ∧
      c.market.answers = m.market.answers ∧ c.notes = m.notes) := by
  constructor
  · intro b c h
    unfold Market.should_resolveS at h
    cases ha : anyRuleS m.do_resolve_rules m.ctx with
    | error e => rw [ha] at h; cases h
    | ok bc =>
      obtain ⟨b0, c0⟩ := bc
      have hc0 : c0 = m.ctx := anyRuleS_ctx m.do_resolve_rules m.ctx b0 c0 ha
      rw [ha] at h
      simp only [Except.ok.injEq, Prod.mk.injEq] at h
      rw [← h.2, hc0]
      simp [Market.ctx]
  · intro v c h
    unfold Market.resolve_toS at h
    cases hf : firstValueS m.resolve_to_rules m.ctx with
    | error e => rw [hf] at h; cases h
    | ok oc =>
      obtain ⟨ov, c0⟩ := oc
      have hc0 : c0 = m.ctx := firstValueS_ctx m.resolve_to_rules m.ctx ov c0 hf
      rw [hf] at h
      cases ov with
      | some v0 =>
        simp only [Except.ok.injEq, Prod.mk.injEq] at h
        rw [← h.2, hc0]
        simp [Market.ctx]
      | none =>
        dsimp only at h
        cases hp : c0.market.probability with
        | some p =>
          rw [hp] at h
          simp only [Except.ok.injEq, Prod.mk.injEq] at h
          rw [← h.2, hc0]
          simp [Market.ctx]
        | none =>
          rw [hp] at h
          cases hm : maxAnswers c0.market.answers with
          | error e => rw [hm] at h; simp at h
          | ok a =>
            rw [hm] at h
            simp only [Except.ok.injEq, Prod.mk.injEq] at h
            rw [← h.2, hc0]
            simp [Market.ctx]

/-- C8 witness: on a market whose lone gate rule fires, the state-passing
should_resolve succeeds and hands back the context with every field as it
was. -/
theorem evaluator_preserves_ctx_witness :
    (⟨⟨"m", false, none, none⟩, "n"⟩ : Ctx).market.id
        = (Market.mk ⟨"m", false, none, none⟩ "n"
            [pureGate (fun _ => true)] []).market.id ∧
    (⟨⟨"m", false, none, none⟩, "n"⟩ : Ctx).market.isResolved
        = (Market.mk ⟨"m", false, none, none⟩ "n"
            [pureGate (fun _ => true)] []).market.isResolved ∧
    (⟨⟨"m", false, none, none⟩, "n"⟩ : Ctx).market.probability
        = (Market.mk ⟨"m", false, none, none⟩ "n"
            [pureGate (fun _ => true)] []).market.probability ∧
    (⟨⟨"m", false, none, none⟩, "n"⟩ : Ctx).market.answers
        = (Market.mk ⟨"m", false, none, none⟩ "n"
            [pureGate (fun _ => true)] []).market.answers ∧
    (⟨⟨"m", false, none, none⟩, "n"⟩ : Ctx).notes
        = (Market.mk ⟨"m", false, none, none⟩ "n"
            [pureGate (fun _ => true)] []).notes :=
  (evaluator_preserves_ctx
      (Market.mk ⟨"m", false, none, none⟩ "n" [pureGate (fun _ => true)] [])).1
    true ⟨⟨"m", false, none, none⟩, "n"⟩ rfl

/-- C9: gate rules are evaluated before the isResolved check: on a context
with isResolved true whose first gate rule raises, should_resolve
propagates the error instead of returning false. -/
theorem gates_before_resolved_check (api : APIMarket) (notes : String)
    (raiser : DoResolveRule) (post : List DoResolveRule)
    (vrs : List ResolutionValueRule) (e : Err)
    (_hres : api.isResolved = true)
    (hr : raiser ⟨api, notes⟩ = .error e) :
    (Market.mk api notes (raiser :: post) vrs).should_resolve = .error e := by
  have key : anyRule (raiser :: post) ⟨api, notes⟩ = .error e := by
    simp [anyRule, hr]
  simp [Market.should_resolve, Market.ctx, key]

/-- C9 witness: an already resolved market whose first gate rule raises
gets the error, not false. -/
theorem gates_before_resolved_check_witness :
    (Market.mk ⟨"m", true, none, none⟩ ""
        [fun _ => .error (.ruleError "boom")] []).should_resolve
      = .error (.ruleError "boom") :=
  gates_before_resolved_check ⟨"m", true, none, none⟩ ""
    (fun _ => .error (.ruleError "boom")) [] [] (.ruleError "boom") rfl rfl

/-- C10: with a probability present and every value rule declining on
every context, resolve_to returns a value of the boolean shape, and the
answers field is never consulted: replacing answers by anything, absent
included, leaves the result unchanged. -/
theorem binary_fallback_total (api : APIMarket) (notes : String)
    (gs : List DoResolveRule) (rules : List ResolutionValueRule) (p : ℚ)
    (hp : api.probability = some p)
    (habs : ∀ r ∈ rules, ∀ c, r c = .ok none) :
    (∃ b, (Market.mk api notes gs rules).resolve_to = .ok (.vBool b)) ∧
    (∀ ans : Option (List Answer),
      (Market.mk ⟨api.id, api.isResolved, api.probability, ans⟩
          notes gs rules).resolve_to
        = (Market.mk api notes gs rules).resolve_to) := by
  constructor
  · have key := firstValue_absent rules ⟨api, notes⟩ (fun r hr => habs r hr _)
    exact ⟨(pyRound p != 0), by simp [Market.resolve_to, Market.ctx, key, hp]⟩
  · intro ans
    have key1 := firstValue_absent rules
      ⟨⟨api.id, api.isResolved, api.probability, ans⟩, notes⟩
      (fun r hr => habs r hr _)
    have key2 := firstValue_absent rules ⟨api, notes⟩ (fun r hr => habs r hr _)
    simp only [hp] at key1
    simp [Market.resolve_to, Market.ctx, key1, key2, hp]

/-- C10 witness: a binary market resolves to the same boolean whether its
answers field holds an empty list or is absent altogether. -/
theorem binary_fallback_total_witness :
    (Market.mk ⟨"m", false, some (Rat.divInt 8 10), some []⟩ "" []
        [fun _ => .ok none]).resolve_to
      = (Market.mk ⟨"m", false, some (Rat.divInt 8 10), none⟩ "" []
        [fun _ => .ok none]).resolve_to :=
  (binary_fallback_total ⟨"m", false, some (Rat.divInt 8 10), none⟩ "" []
      [fun _ => .ok none] (Rat.divInt 8 10) rfl
      (fun r hr c => by simp at hr; subst hr; rfl)).2 (some [])

end ManifoldMM
